import Mathlib

/-
  Verification of the jlrs C compatibility shim (jl_sys/src).

  Shallow embedding of the catch trampoline (jlrs_cc.c, jlrs_cc/jlrs_cc_ext.c,
  jlrs_c.c), the recursive mutex primitive (jlrs_cc_hacks.c, jlrs_cc.c), the
  build-time version gate (jlrs_cc/jlrs_cc.h), the task-state accessors
  (jlrs_cc/jlrs_cc_reexport.c, jlrs_cc{,/}jlrs_cc_fast_tls.c) and the union
  component search (jlrs_cc_hacks.c).

  Machine integers: `count` and `*nth` are C `uint32_t`/`unsigned`; all
  arithmetic on them is taken modulo 2^32.  Pointers are modelled as `Nat`
  identities, NULL as `Option.none`.
-/

/-- 2^32, the modulus of C `uint32_t` arithmetic. -/
def UINT32_MOD : Nat := 4294967296

/-- C `uint32_t` increment: equals `(x + 1) % 2^32` on register values
(`x < 2^32`), written without `%` so that terms over symbolic arguments
normalise. -/
def uint32_inc (x : Nat) : Nat :=
  if x + 1 = UINT32_MOD then 0 else x + 1

/-- C `uint32_t` decrement: equals `(x + 2^32 - 1) % 2^32` on register values
(`x < 2^32`). -/
def uint32_dec (x : Nat) : Nat :=
  if x = 0 then UINT32_MOD - 1 else x - 1

/- ## Catch trampoline (jlrs_cc.c, jlrs_cc/jlrs_cc_ext.c, jlrs_c.c) -/

/-- Tags of `jlrs_catch_t` (jlrs_cc/jlrs_cc_ext.h lines 12-16). -/
inductive jlrs_catch_tag_t where
  | JLRS_CATCH_OK
  | JLRS_CATCH_EXCEPTION
  | JLRS_CATCH_PANIC
deriving DecidableEq

/-- `jlrs_catch_t` (jlrs_cc/jlrs_cc_ext.h lines 18-22): tag plus exception
pointer (`none` models a NULL / 0 payload). -/
structure jlrs_catch_t where
  tag : jlrs_catch_tag_t
  error : Option Nat
deriving DecidableEq

/-- Runtime state visible to the trampolines.  `currentException` is the
runtime's currently-propagating-exception state, the value observed by
`jl_current_exception` and reset by `jl_exception_clear`; `output` is the
contents of the caller-provided output buffer.  The `JL_TRY`/`JL_CATCH`
machinery itself lives in the Julia runtime, outside this repository; per the
spec (sections 4.1 and 9) the handler branch observes the raised exception as
the current exception and the propagating state stays set until an explicit
`jl_exception_clear` call. -/
structure RtState where
  currentException : Option Nat
  output : Nat
deriving DecidableEq

/-- Behaviour of a caller-supplied callback: it writes `out` through the
output pointer and then either returns the tagged result `r` normally, or
raises the runtime exception `e` (non-local transfer into `JL_CATCH`). -/
inductive CallbackRun where
  | ret (r : jlrs_catch_t) (out : Nat)
  | raise (e : Nat) (out : Nat)
deriving DecidableEq

/-- `jlrs_catch_wrapper` (jlrs_cc.c lines 15-33), non-`JLRS_WINDOWS_LTS`
configuration: runs the callback inside `JL_TRY`; on normal return it returns
the callback's result unchanged, on a raised exception the `JL_CATCH` branch
returns tag `JLRS_CATCH_EXCEPTION` with payload `jl_current_exception()`.
No path calls `jl_exception_clear`. -/
def jlrs_catch_wrapper (cb : CallbackRun) (s : RtState) : jlrs_catch_t × RtState :=
  match cb with
  | .ret r out => (r, { s with output := out })
  | .raise e out =>
      (⟨.JLRS_CATCH_EXCEPTION, some e⟩,
       { s with output := out, currentException := some e })

/-- `jlrs_try_catch` (jlrs_cc/jlrs_cc_ext.c lines 16-39), non-LTS
configuration: `res` starts as `{JLRS_CATCH_OK, 0}`, the trampoline result
replaces it on the normal path; the `JL_CATCH` branch returns
`{JLRS_CATCH_EXCEPTION, jl_current_exception()}` directly.  No path calls
`jl_exception_clear`. -/
def jlrs_try_catch (cb : CallbackRun) (s : RtState) : jlrs_catch_t × RtState :=
  match cb with
  | .ret r out => (r, { s with output := out })
  | .raise e out =>
      (⟨.JLRS_CATCH_EXCEPTION, some e⟩,
       { s with output := out, currentException := some e })

/-- Flags of `jlrs_result_t` (jlrs_c.h lines 10-15). -/
inductive jlrs_result_flag_t where
  | JLRS_RESULT_VOID
  | JLRS_RESULT_VALUE
  | JLRS_RESULT_ERR
deriving DecidableEq

/-- `jlrs_result_t` (jlrs_c.h): flag plus data pointer. -/
structure jlrs_result_t where
  flag : jlrs_result_flag_t
  data : Option Nat
deriving DecidableEq

/-- Behaviour of the wrapped `jl_alloc_array_1d` call: it either produces the
array value `v` or raises the runtime exception `e`. -/
inductive AllocRun where
  | value (v : Nat)
  | raise (e : Nat)
deriving DecidableEq

/-- `jlrs_alloc_array_1d` (jlrs_c.c lines 4-21): wraps the allocation in
`JL_TRY`/`JL_CATCH` and, after either branch, calls `jl_exception_clear()`
unconditionally before returning. -/
def jlrs_alloc_array_1d (alloc : AllocRun) (s : RtState) : jlrs_result_t × RtState :=
  match alloc with
  | .value v => (⟨.JLRS_RESULT_VALUE, some v⟩, { s with currentException := none })
  | .raise e => (⟨.JLRS_RESULT_ERR, some e⟩, { s with currentException := none })

/- ## Recursive mutex primitive (jlrs_cc_hacks.c lines 60-178, jlrs_cc.c lines 141-174) -/

/-- Task identity: the `jl_task_t *` pointer of the running task, compared
only for identity.  `Option TaskId` models the atomic `owner` field, `none`
being NULL. -/
abbrev TaskId := Nat

/-- `jl_mutex_t` / the Mutex Cell (jlrs_cc.h lines 58-64): an owner pointer
and a `uint32_t` recursion count. -/
structure jl_mutex_t where
  owner : Option TaskId
  count : Nat
deriving DecidableEq

/-- Result of the non-looping entry phase of an acquire
(jlrs_cc_hacks.c lines 83-96): `fastpath` is the re-entrant branch
(`owner == self`: plain `count++`, no compare-and-swap executed), `cas` is
the immediate compare-and-swap acquisition (`owner == NULL`), `spin` means
the code falls through into the spin loop. -/
inductive AcquirePath where
  | fastpath (c : jl_mutex_t)
  | cas (c : jl_mutex_t)
  | spin
deriving DecidableEq

/-- Entry phase of `jlrs_mutex_wait` (jlrs_cc_hacks.c lines 85-96): load
`owner`; if it is `self`, increment `count` and return; if it is NULL,
compare-and-swap to `self` and set `count = 1`; otherwise enter the spin
loop.  The compare-and-swap is modelled as succeeding whenever the observed
owner is NULL (no interleaved writer between the load and the swap). -/
def jlrs_mutex_wait_entry (self : TaskId) (c : jl_mutex_t) : AcquirePath :=
  if c.owner = some self then
    .fastpath { c with count := uint32_inc c.count }
  else if c.owner = none then
    .cas ⟨some self, 1⟩
  else
    .spin

/-- Outcome of an acquire attempt observed over a finite window: `iters` is
the number of spin-loop iterations whose compare-and-swap retry fails (each
such iteration goes on to the safepoint check, in the tracked variant, and
the pause), `safepoints` the number of `jl_gc_safepoint_` checks performed,
and `acquired` the acquired cell (`none` when the task is still spinning
when the observation window ends). -/
structure SpinOutcome where
  iters : Nat
  safepoints : Nat
  acquired : Option jl_mutex_t
deriving DecidableEq

/-- Spin loop of `jlrs_mutex_wait` (jlrs_cc_hacks.c lines 98-116).  The first
argument of the match is the `owner` value held at the top of the loop; `obs`
is the sequence of values the atomic re-loads of `owner` return on later
iterations.  Each iteration first retries the compare-and-swap (succeeding
when the observed owner is NULL), then, only in the `safepoint` variant,
checks for a pending GC safepoint, pauses, and re-loads `owner`. -/
def jlrs_mutex_spin (self : TaskId) (safepoint : Bool) :
    Option TaskId → List (Option TaskId) → SpinOutcome
  | none, _ => ⟨0, 0, some ⟨some self, 1⟩⟩
  | some _, [] => ⟨1, if safepoint then 1 else 0, none⟩
  | some _, o :: obs =>
      let r := jlrs_mutex_spin self safepoint o obs
      ⟨r.iters + 1, (if safepoint then 1 else 0) + r.safepoints, r.acquired⟩

/-- `jlrs_mutex_wait` (jlrs_cc_hacks.c lines 83-117): entry phase followed,
on contention, by the spin loop. -/
def jlrs_mutex_wait (self : TaskId) (c : jl_mutex_t) (safepoint : Bool)
    (obs : List (Option TaskId)) : SpinOutcome :=
  match jlrs_mutex_wait_entry self c with
  | .fastpath c' => ⟨0, 0, some c'⟩
  | .cas c' => ⟨0, 0, some c'⟩
  | .spin => jlrs_mutex_spin self safepoint c.owner obs

/-- `jlrs_lock_frame_push` (jlrs_cc_hacks.c lines 60-74): append the lock to
the current task's per-task lock list (`ptls->locks`); the dynamic-array
growth is modelled as always succeeding. -/
def jlrs_lock_frame_push (locks : List Nat) (lockId : Nat) : List Nat :=
  locks ++ [lockId]

/-- Outcome of a tracked or bare lock entry point: spin statistics plus, on
acquisition, the new cell and the task's lock list. -/
structure LockOutcome where
  iters : Nat
  safepoints : Nat
  result : Option (jl_mutex_t × List Nat)
deriving DecidableEq

/-- `jlrs_lock` (jlrs_cc_hacks.c lines 131-144), the tracked variant:
`jlrs_mutex_wait` with `safepoint = 1`, then `jlrs_lock_frame_push` before
returning.  `lockId` is the identity of the lock being pushed, `locks` the
task's lock list on entry. -/
def jlrs_lock (self : TaskId) (lockId : Nat) (c : jl_mutex_t)
    (obs : List (Option TaskId)) (locks : List Nat) : LockOutcome :=
  let w := jlrs_mutex_wait self c true obs
  ⟨w.iters, w.safepoints, w.acquired.map fun c' => (c', jlrs_lock_frame_push locks lockId)⟩

/-- `jlrs_lock_nogc` (jlrs_cc_hacks.c lines 146-151), the bare variant:
`jlrs_mutex_wait` with `safepoint = 0` and no lock-stack bookkeeping. -/
def jlrs_lock_nogc (self : TaskId) (c : jl_mutex_t)
    (obs : List (Option TaskId)) (locks : List Nat) : LockOutcome :=
  let w := jlrs_mutex_wait self c false obs
  ⟨w.iters, w.safepoints, w.acquired.map fun c' => (c', locks)⟩

/-- Legacy `jlrs_lock` (jlrs_cc.c lines 141-163, likewise jlrs_cc.cc): the
re-entrant fast path, then a spin loop whose iterations only retry the
compare-and-swap, call `jl_cpu_pause()` and re-load `owner` — no safepoint
check anywhere, and no lock-stack push. -/
def jlrs_lock_cc (self : TaskId) (c : jl_mutex_t)
    (obs : List (Option TaskId)) : SpinOutcome :=
  if c.owner = some self then
    ⟨0, 0, some { c with count := uint32_inc c.count }⟩
  else
    jlrs_mutex_spin self false c.owner obs

/-- `jlrs_mutex_unlock_nogc` (jlrs_cc_hacks.c lines 119-129) with `NDEBUG`
(the assertion compiled out): decrement `count` (uint32 wrap-around); when
the decremented count is zero, store NULL to `owner` with release ordering
and call `jl_cpu_wake()`.  Returns the new cell and whether the wake signal
was issued. -/
def jlrs_mutex_unlock_nogc (c : jl_mutex_t) : jl_mutex_t × Bool :=
  if uint32_dec c.count = 0 then
    (⟨none, 0⟩, true)
  else
    ({ c with count := uint32_dec c.count }, false)

/-- `jlrs_mutex_unlock_nogc` in a debug build: the
`assert(owner == jl_current_task)` at lines 121-122 is evaluated before any
mutation; `none` models the assertion firing (the cell is left unmodified). -/
def jlrs_mutex_unlock_nogc_dbg (self : TaskId) (c : jl_mutex_t) :
    Option (jl_mutex_t × Bool) :=
  if c.owner = some self then some (jlrs_mutex_unlock_nogc c) else none

/-- Legacy `jlrs_unlock` (jlrs_cc.c lines 165-174): decrement `count`; on
zero, clear `owner` and wake.  The function contains no assertion. -/
def jlrs_unlock_cc (c : jl_mutex_t) : jl_mutex_t × Bool :=
  if uint32_dec c.count = 0 then
    (⟨none, 0⟩, true)
  else
    ({ c with count := uint32_dec c.count }, false)

/-- Legacy `jlrs_unlock` in a debug build: since the source contains no
assertion, debug and release behaviour coincide; the `Option` return aligns
the type with `jlrs_mutex_unlock_nogc_dbg` (`none` would mean a failed
assertion, which this function never produces). -/
def jlrs_unlock_cc_dbg (_self : TaskId) (c : jl_mutex_t) :
    Option (jl_mutex_t × Bool) :=
  some (jlrs_unlock_cc c)

/-- One operation of a single-task acquire/release sequence. -/
inductive MutexOp where
  | acq
  | rel
deriving DecidableEq

/-- One step of a single-task sequence: an acquire goes through the
`jlrs_mutex_wait` entry phase (with the task running alone, `owner` is
either NULL or `self`, so the `spin` branch is unreachable; it is mapped to
the unchanged cell, as the spin would never return), and a release runs
`jlrs_mutex_unlock_nogc`. -/
def mutexStep (self : TaskId) (c : jl_mutex_t) : MutexOp → jl_mutex_t
  | .acq =>
      match jlrs_mutex_wait_entry self c with
      | .fastpath c' => c'
      | .cas c' => c'
      | .spin => c
  | .rel => (jlrs_mutex_unlock_nogc c).1

/-- Run a sequence of single-task operations on a cell. -/
def mutexRun (self : TaskId) (c : jl_mutex_t) : List MutexOp → jl_mutex_t
  | [] => c
  | op :: ops => mutexRun self (mutexStep self c op) ops

/-- Number of acquire operations in a sequence. -/
def acquires : List MutexOp → Nat
  | [] => 0
  | .acq :: ops => acquires ops + 1
  | .rel :: ops => acquires ops

/-- Number of release operations in a sequence. -/
def releases : List MutexOp → Nat
  | [] => 0
  | .acq :: ops => releases ops
  | .rel :: ops => releases ops + 1

/-- A sequence is valid from recursion depth `d` when every release happens
while the lock is held and the recursion depth always stays below 2^32. -/
def validFrom (d : Nat) : List MutexOp → Bool
  | [] => true
  | .acq :: ops => decide (d + 1 < UINT32_MOD) && validFrom (d + 1) ops
  | .rel :: ops => decide (d ≠ 0) && validFrom (d - 1) ops

/-- Recursion depth after running a sequence from depth `d` (well defined on
sequences that are valid from `d`). -/
def depthAfter (d : Nat) : List MutexOp → Nat
  | [] => d
  | .acq :: ops => depthAfter (d + 1) ops
  | .rel :: ops => depthAfter (d - 1) ops

/-- The unlocked cell: owner NULL, count 0. -/
def unlockedCell : jl_mutex_t := ⟨none, 0⟩

/-- The cell as seen by a lone task holding the lock at depth `d` (`d = 0`
meaning unlocked). -/
def cellAt (self : TaskId) (d : Nat) : jl_mutex_t :=
  if d = 0 then ⟨none, 0⟩ else ⟨some self, d⟩

/- ## Build-time version gate (jlrs_cc/jlrs_cc.h lines 13-15) -/

/-- The exported entry points of a successfully compiled shim; carrying the
embedded functions ties "the shim exists" to the definitions above. -/
structure ShimExports where
  catch_wrapper : CallbackRun → RtState → jlrs_catch_t × RtState
  try_catch : CallbackRun → RtState → jlrs_catch_t × RtState
  lock : TaskId → Nat → jl_mutex_t → List (Option TaskId) → List Nat → LockOutcome
  lock_nogc : TaskId → jl_mutex_t → List (Option TaskId) → List Nat → LockOutcome

/-- The build of the shim translation units (every one includes
jlrs_cc/jlrs_cc.h, whose lines 13-15 read
`#if JLRS_EXPECTED_MINOR_VERSION != JULIA_VERSION_MINOR  #error ...`):
when the selected minor version differs from the linked runtime's reported
minor version the preprocessor raises the error and no shim function is
compiled; otherwise compilation proceeds and the entry points exist. -/
def jlrs_shim_build (expected linked : Nat) : Option ShimExports :=
  if expected ≠ linked then
    none
  else
    some ⟨jlrs_catch_wrapper, jlrs_try_catch, jlrs_lock, jlrs_lock_nogc⟩

/- ## Task-state accessors (jlrs_cc/jlrs_cc_reexport.c lines 49-62, jlrs_cc/jlrs_cc_fast_tls.c lines 12-40, jlrs_cc_fast_tls.c lines 16-73) -/

/-- Per-thread state `jl_tls_states_t` as far as the accessors read it: the
`gc_state` field (an `int8_t`). -/
structure jl_ptls_t where
  gc_state : Int
deriving DecidableEq

/-- `jl_task_t` as far as the accessors read it: its `ptls` field. -/
structure jl_task_t where
  ptls : jl_ptls_t
deriving DecidableEq

/-- The thread-local state the accessors start from: `jl_get_pgcstack()`
returns NULL (`none`) on a thread with no associated runtime task, and
otherwise the address of the `gcstack` field inside the current task, from
which `container_of` recovers that task. -/
structure ThreadTLS where
  pgcstack : Option jl_task_t
deriving DecidableEq

/-- `jlrs_current_task` (jlrs_cc/jlrs_cc_reexport.c lines 49-62, non-1.6
branch): NULL when `jl_get_pgcstack()` is NULL, otherwise the task recovered
by `container_of`. -/
def jlrs_current_task (tls : ThreadTLS) : Option jl_task_t :=
  match tls.pgcstack with
  | none => none
  | some task => some task

/-- `jlrs_get_ptls_states` (jlrs_cc/jlrs_cc_fast_tls.c lines 12-22, likewise
the non-1.6 branch of jlrs_cc_fast_tls.c lines 16-30): NULL when
`jl_get_pgcstack()` is NULL, otherwise `task->ptls`. -/
def jlrs_get_ptls_states (tls : ThreadTLS) : Option jl_ptls_t :=
  match tls.pgcstack with
  | none => none
  | some task => some task.ptls

/-- `jlrs_task_gc_state` (jlrs_cc/jlrs_cc_fast_tls.c lines 30-40, likewise
the non-1.6 branch of jlrs_cc_fast_tls.c lines 53-73): -1 when
`jl_get_pgcstack()` is NULL, otherwise the relaxed load of
`task->ptls->gc_state`. -/
def jlrs_task_gc_state (tls : ThreadTLS) : Int :=
  match tls.pgcstack with
  | none => -1
  | some task => task.ptls.gc_state

/- ## Union component search (jlrs_cc_hacks.c lines 206-219) -/

/-- A `jl_value_t *` haystack as `jlrs_find_union_component` traverses it: a
`jl_uniontype_t` node has components `a` and `b`; any non-union value is a
leaf, identified by its pointer (`Nat`).  The needle is compared by pointer
identity and only ever against leaves (the loop decomposes every union
node first). -/
inductive jl_uniontype_tree where
  | leaf (ty : Nat)
  | union (a b : jl_uniontype_tree)
deriving DecidableEq

/-- `jlrs_find_union_component` (jlrs_cc_hacks.c lines 206-219): the `while
(jl_is_uniontype(haystack))` loop recurses into `u->a` and continues with
`u->b`; at a non-union haystack, pointer-compare with the needle; on a miss,
`(*nth)++` (an `unsigned` counter, wrapping at 2^32) and return 0.  The
result is the returned flag paired with the final value of `*nth`. -/
def jlrs_find_union_component : jl_uniontype_tree → Nat → Nat → Bool × Nat
  | .union a b, needle, nth =>
      match jlrs_find_union_component a needle nth with
      | (true, nth') => (true, nth')
      | (false, nth') => jlrs_find_union_component b needle nth'
  | .leaf t, needle, nth =>
      if needle = t then (true, nth) else (false, uint32_inc nth)

/-- The leaf components of a haystack, in left-to-right traversal order. -/
def unionLeaves : jl_uniontype_tree → List Nat
  | .leaf t => [t]
  | .union a b => unionLeaves a ++ unionLeaves b

/-- Position of the first occurrence of `needle` in a list of leaves; equal
to the list's length when `needle` is absent. -/
def leafIndexOf (needle : Nat) : List Nat → Nat
  | [] => 0
  | t :: ts => if t = needle then 0 else leafIndexOf needle ts + 1

/-- The complete union tree of depth `n` over a single leaf: 2^n leaf
components.  As a C heap structure this is a DAG of `n + 1` nodes (each
union node's `a` and `b` point to the same subtree), which
`jlrs_find_union_component` traverses as a tree. -/
def fullUnionTree : Nat → jl_uniontype_tree
  | 0 => .leaf 1
  | n + 1 => .union (fullUnionTree n) (fullUnionTree n)

/- ## Theorems -/

/-- C1: the claim that every catch-trampoline entry point clears the
propagating-exception state on every exit path fails on the code:
`jlrs_catch_wrapper` and `jlrs_try_catch` leave the raised exception as the
current exception on their exception-capture path (neither contains a
`jl_exception_clear` call), while the `jlrs_c.c` entry point
`jlrs_alloc_array_1d` does clear it on both paths, as the spec requires. -/
theorem jlrs_trampoline_exception_state_not_cleared :
    (jlrs_catch_wrapper (CallbackRun.raise 7 5) ⟨none, 0⟩).2.currentException = some 7
  ∧ (jlrs_try_catch (CallbackRun.raise 7 5) ⟨none, 0⟩).2.currentException = some 7
  ∧ (∀ (a : AllocRun) (s : RtState),
      (jlrs_alloc_array_1d a s).2.currentException = none) := by
  refine ⟨rfl, rfl, ?_⟩
  intro a s
  cases a <;> rfl

/-- C2: when the callback returns normally, both trampolines return exactly
the callback's tagged result and leave the value written through the output
pointer unmodified; when the callback raises a runtime exception, both
return tag `JLRS_CATCH_EXCEPTION` whose payload is the (non-null) current
exception object. -/
theorem jlrs_trampoline_roundtrip :
    ∀ (r : jlrs_catch_t) (out e : Nat) (s : RtState),
      (jlrs_catch_wrapper (CallbackRun.ret r out) s).1 = r
    ∧ (jlrs_catch_wrapper (CallbackRun.ret r out) s).2.output = out
    ∧ (jlrs_catch_wrapper (CallbackRun.raise e out) s).1.tag
        = jlrs_catch_tag_t.JLRS_CATCH_EXCEPTION
    ∧ (jlrs_catch_wrapper (CallbackRun.raise e out) s).1.error
        = (jlrs_catch_wrapper (CallbackRun.raise e out) s).2.currentException
    ∧ (jlrs_catch_wrapper (CallbackRun.raise e out) s).1.error = some e
    ∧ (jlrs_try_catch (CallbackRun.ret r out) s).1 = r
    ∧ (jlrs_try_catch (CallbackRun.ret r out) s).2.output = out
    ∧ (jlrs_try_catch (CallbackRun.raise e out) s).1.tag
        = jlrs_catch_tag_t.JLRS_CATCH_EXCEPTION
    ∧ (jlrs_try_catch (CallbackRun.raise e out) s).1.error
        = (jlrs_try_catch (CallbackRun.raise e out) s).2.currentException
    ∧ (jlrs_try_catch (CallbackRun.raise e out) s).1.error = some e := by
  intro r out e s
  exact ⟨rfl, rfl, rfl, rfl, rfl, rfl, rfl, rfl, rfl, rfl⟩

/-- Taking a prefix preserves validity. -/
theorem validFrom_take (d : Nat) (ops : List MutexOp) (i : Nat)
    (h : validFrom d ops = true) : validFrom d (ops.take i) = true := by
  induction ops generalizing d i with
  | nil => simpa using h
  | cons op ops ih =>
      cases i with
      | zero => simp [validFrom]
      | succ i =>
          cases op with
          | acq =>
              simp only [validFrom, Bool.and_eq_true, decide_eq_true_eq] at h
              simp only [List.take_succ_cons, validFrom, Bool.and_eq_true,
                decide_eq_true_eq]
              exact ⟨h.1, ih (d + 1) i h.2⟩
          | rel =>
              simp only [validFrom, Bool.and_eq_true, decide_eq_true_eq] at h
              simp only [List.take_succ_cons, validFrom, Bool.and_eq_true,
                decide_eq_true_eq]
              exact ⟨h.1, ih (d - 1) i h.2⟩

/-- On a valid sequence the final depth balances the acquire/release counts. -/
theorem depthAfter_releases (d : Nat) (ops : List MutexOp)
    (h : validFrom d ops = true) :
    depthAfter d ops + releases ops = d + acquires ops := by
  induction ops generalizing d with
  | nil => simp [depthAfter, releases, acquires]
  | cons op ops ih =>
      cases op with
      | acq =>
          simp only [validFrom, Bool.and_eq_true, decide_eq_true_eq] at h
          have := ih (d + 1) h.2
          simp only [depthAfter, releases, acquires]
          omega
      | rel =>
          simp only [validFrom, Bool.and_eq_true, decide_eq_true_eq] at h
          have := ih (d - 1) h.2
          simp only [depthAfter, releases, acquires]
          omega


/-- Re-entrant branch of the acquire entry phase. -/
theorem jlrs_mutex_wait_entry_fast (self : TaskId) (c : jl_mutex_t)
    (h : c.owner = some self) :
    jlrs_mutex_wait_entry self c
      = AcquirePath.fastpath { c with count := uint32_inc c.count } := by
  rw [jlrs_mutex_wait_entry, if_pos h]

/-- Uncontended branch of the acquire entry phase. -/
theorem jlrs_mutex_wait_entry_unowned (self : TaskId) (c : jl_mutex_t)
    (h : c.owner = none) :
    jlrs_mutex_wait_entry self c = AcquirePath.cas ⟨some self, 1⟩ := by
  rw [jlrs_mutex_wait_entry, h]
  rfl

/-- Contended branch of the acquire entry phase. -/
theorem jlrs_mutex_wait_entry_contended (self o : TaskId) (c : jl_mutex_t)
    (h : c.owner = some o) (hne : o ≠ self) :
    jlrs_mutex_wait_entry self c = AcquirePath.spin := by
  rw [jlrs_mutex_wait_entry, h]
  rw [if_neg fun hc => hne (Option.some.inj hc), if_neg fun hc => Option.noConfusion hc]

/-- A single-task acquire step on a cell already held by the task. -/
theorem mutexStep_acq_fast (self : TaskId) (c : jl_mutex_t)
    (h : c.owner = some self) :
    mutexStep self c MutexOp.acq = { c with count := uint32_inc c.count } := by
  show (match jlrs_mutex_wait_entry self c with
        | .fastpath c' => c'
        | .cas c' => c'
        | .spin => c) = _
  rw [jlrs_mutex_wait_entry_fast self c h]

/-- A single-task acquire step on an unowned cell. -/
theorem mutexStep_acq_unowned (self : TaskId) (c : jl_mutex_t)
    (h : c.owner = none) :
    mutexStep self c MutexOp.acq = ⟨some self, 1⟩ := by
  show (match jlrs_mutex_wait_entry self c with
        | .fastpath c' => c'
        | .cas c' => c'
        | .spin => c) = _
  rw [jlrs_mutex_wait_entry_unowned self c h]

/-- A release step runs `jlrs_mutex_unlock_nogc`. -/
theorem mutexStep_rel (self : TaskId) (c : jl_mutex_t) :
    mutexStep self c MutexOp.rel = (jlrs_mutex_unlock_nogc c).1 := rfl

/-- Release on a cell whose count is positive and in range: the decrement
does not wrap. -/
theorem jlrs_mutex_unlock_nogc_eq (c : jl_mutex_t) (h₂ : c.count ≠ 0) :
    jlrs_mutex_unlock_nogc c
      = if c.count - 1 = 0 then (⟨none, 0⟩, true)
        else ({ c with count := c.count - 1 }, false) := by
  have hdec : uint32_dec c.count = c.count - 1 := by
    rw [uint32_dec, if_neg h₂]
  rw [jlrs_mutex_unlock_nogc, hdec]

/-- Running a valid single-task sequence from the lone-holder cell at depth
`d` lands on the lone-holder cell at the resulting depth. -/
theorem mutexRun_cellAt (self : TaskId) (d : Nat) (ops : List MutexOp)
    (h : validFrom d ops = true) (hd : d < UINT32_MOD) :
    mutexRun self (cellAt self d) ops = cellAt self (depthAfter d ops) := by
  induction ops generalizing d with
  | nil => simp [mutexRun, depthAfter]
  | cons op ops ih =>
      cases op with
      | acq =>
          simp only [validFrom, Bool.and_eq_true, decide_eq_true_eq] at h
          have hinc : uint32_inc d = d + 1 := by
            rw [uint32_inc, if_neg (Nat.ne_of_lt h.1)]
          have hstep : mutexStep self (cellAt self d) MutexOp.acq
              = cellAt self (d + 1) := by
            by_cases hd0 : d = 0
            · subst hd0
              have hcell : cellAt self 0 = ⟨none, 0⟩ := rfl
              rw [hcell, mutexStep_acq_unowned self ⟨none, 0⟩ rfl]
              have hcell' : cellAt self 1 = ⟨some self, 1⟩ := by
                simp only [cellAt, if_neg Nat.one_ne_zero]
              rw [hcell']
            · have hcell : cellAt self d = ⟨some self, d⟩ := by
                simp only [cellAt, if_neg hd0]
              have hcell' : cellAt self (d + 1) = ⟨some self, d + 1⟩ := by
                simp only [cellAt, if_neg (Nat.succ_ne_zero d)]
              rw [hcell, mutexStep_acq_fast self ⟨some self, d⟩ rfl, hcell']
              show (⟨some self, uint32_inc d⟩ : jl_mutex_t) = ⟨some self, d + 1⟩
              rw [hinc]
          simp only [mutexRun, hstep, depthAfter]
          exact ih (d + 1) h.2 h.1
      | rel =>
          simp only [validFrom, Bool.and_eq_true, decide_eq_true_eq] at h
          have hcell : cellAt self d = ⟨some self, d⟩ := by
            simp only [cellAt, if_neg h.1]
          have hstep : mutexStep self (cellAt self d) MutexOp.rel
              = cellAt self (d - 1) := by
            rw [hcell, mutexStep_rel self ⟨some self, d⟩,
              jlrs_mutex_unlock_nogc_eq ⟨some self, d⟩ h.1]
            by_cases hd1 : d - 1 = 0
            · have h0 : cellAt self (d - 1) = ⟨none, 0⟩ := by
                simp only [cellAt, if_pos hd1]
              rw [if_pos hd1, h0]
            · have h0 : cellAt self (d - 1) = ⟨some self, d - 1⟩ := by
                simp only [cellAt, if_neg hd1]
              rw [if_neg hd1, h0]
          simp only [mutexRun, hstep, depthAfter]
          exact ih (d - 1) h.2 (by omega)

/-- Unfolding one step of a run. -/
theorem mutexRun_cons (self : TaskId) (c : jl_mutex_t) (op : MutexOp)
    (ops : List MutexOp) :
    mutexRun self c (op :: ops) = mutexRun self (mutexStep self c op) ops := rfl

/-- The count of the lone-holder cell is the depth. -/
theorem cellAt_count (self : TaskId) (D : Nat) : (cellAt self D).count = D := by
  by_cases h : D = 0
  · rw [cellAt, if_pos h, h]
  · rw [cellAt, if_neg h]

/-- The lone-holder cell is owned by the task exactly at positive depth. -/
theorem cellAt_owner_iff (self : TaskId) (D : Nat) :
    (cellAt self D).owner = some self ↔ 0 < D := by
  by_cases h : D = 0
  · rw [cellAt, if_pos h]
    simp [h]
  · rw [cellAt, if_neg h]
    simp [Nat.pos_of_ne_zero h]

/-- C3 (amended): for every single-task sequence of acquire/release calls in
which each release happens while the lock is held and the recursion depth
stays below 2^32, after every prefix the cell's count equals the number of
acquires minus the number of releases, and the owner field is set exactly
when the count is positive (so each individual operation preserves that
invariant along the run). -/
theorem jlrs_mutex_single_task_net (self : TaskId) (ops : List MutexOp)
    (h : validFrom 0 ops = true) (i : Nat) :
    (mutexRun self unlockedCell (ops.take i)).count
      = acquires (ops.take i) - releases (ops.take i)
  ∧ ((mutexRun self unlockedCell (ops.take i)).owner = some self
      ↔ 0 < (mutexRun self unlockedCell (ops.take i)).count) := by
  have ht := validFrom_take 0 ops i h
  have hrun := mutexRun_cellAt self 0 (ops.take i) ht (by decide)
  have hdep := depthAfter_releases 0 (ops.take i) ht
  have hcell0 : unlockedCell = cellAt self 0 := rfl
  rw [hcell0, hrun, cellAt_owner_iff, cellAt_count]
  exact ⟨by omega, Iff.rfl⟩

/-- Witness for C3: the valid sequence acquire, acquire, release ends with
count 1 = 2 - 1 and the owner set. -/
theorem jlrs_mutex_single_task_net_witness :
    validFrom 0 [MutexOp.acq, MutexOp.acq, MutexOp.rel] = true
  ∧ ((mutexRun 1 unlockedCell ([MutexOp.acq, MutexOp.acq, MutexOp.rel].take 3)).count
      = acquires ([MutexOp.acq, MutexOp.acq, MutexOp.rel].take 3)
        - releases ([MutexOp.acq, MutexOp.acq, MutexOp.rel].take 3)
    ∧ ((mutexRun 1 unlockedCell
          ([MutexOp.acq, MutexOp.acq, MutexOp.rel].take 3)).owner = some 1
        ↔ 0 < (mutexRun 1 unlockedCell
            ([MutexOp.acq, MutexOp.acq, MutexOp.rel].take 3)).count)) :=
  ⟨by decide,
   jlrs_mutex_single_task_net 1 [MutexOp.acq, MutexOp.acq, MutexOp.rel] (by decide) 3⟩

/-- Repeated re-entrant acquires accumulate into the count modulo 2^32. -/
theorem mutexRun_acq_replicate (self : TaskId) (n : Nat) :
    ∀ k : Nat, k < UINT32_MOD →
      mutexRun self ⟨some self, k⟩ (List.replicate n MutexOp.acq)
        = ⟨some self, (k + n) % UINT32_MOD⟩ := by
  induction n with
  | zero =>
      intro k hk
      simp [mutexRun, List.replicate, Nat.mod_eq_of_lt hk]
  | succ n ih =>
      intro k hk
      rw [List.replicate_succ]
      have hstep : mutexStep self ⟨some self, k⟩ MutexOp.acq
          = ⟨some self, uint32_inc k⟩ :=
        mutexStep_acq_fast self ⟨some self, k⟩ rfl
      simp only [mutexRun, hstep]
      by_cases hk1 : k + 1 = UINT32_MOD
      · have h0 : uint32_inc k = 0 := by rw [uint32_inc, if_pos hk1]
        rw [h0, ih 0 (by decide)]
        have harith : (0 + n) % UINT32_MOD = (k + (n + 1)) % UINT32_MOD := by
          rw [Nat.zero_add, show k + (n + 1) = UINT32_MOD + n from by omega,
            Nat.add_mod_left]
        rw [harith]
      · have hlt : k + 1 < UINT32_MOD := Nat.lt_of_le_of_ne (Nat.succ_le_of_lt hk) hk1
        have h1 : uint32_inc k = k + 1 := by rw [uint32_inc, if_neg hk1]
        rw [h1, ih (k + 1) hlt, show k + 1 + n = k + (n + 1) from by omega]

/-- Every element of an all-acquire sequence counts as an acquire. -/
theorem acquires_replicate (n : Nat) :
    acquires (List.replicate n MutexOp.acq) = n := by
  induction n with
  | zero => rfl
  | succ n ih => rw [List.replicate_succ]; simp only [acquires, ih]

/-- An all-acquire sequence contains no release. -/
theorem releases_replicate (n : Nat) :
    releases (List.replicate n MutexOp.acq) = 0 := by
  induction n with
  | zero => rfl
  | succ n ih => rw [List.replicate_succ]; simp only [releases, ih]

/-- C3 counterexample: a single task that acquires the cell 2^32 times (each
acquire is the contract-legal re-entrant fast path) ends with count = 0 while
the owner is still set, because the uint32 count wraps; the claim's
"count = acquires - releases" and "owner set iff count > 0" both fail at
this sequence. -/
theorem jlrs_mutex_seq_counterexample :
    mutexRun 1 unlockedCell (List.replicate UINT32_MOD MutexOp.acq)
      = ⟨some 1, 0⟩
  ∧ acquires (List.replicate UINT32_MOD MutexOp.acq)
      - releases (List.replicate UINT32_MOD MutexOp.acq) = UINT32_MOD
  ∧ (0 : Nat) ≠ UINT32_MOD := by
  refine ⟨?_, ?_, by decide⟩
  · rw [show UINT32_MOD = UINT32_MOD - 1 + 1 from by decide, List.replicate_succ,
      mutexRun_cons, mutexStep_acq_unowned 1 unlockedCell rfl,
      mutexRun_acq_replicate 1 (UINT32_MOD - 1) 1 (by decide),
      show (1 + (UINT32_MOD - 1)) % UINT32_MOD = 0 from by decide]
  · rw [acquires_replicate, releases_replicate, Nat.sub_zero]

/-- The re-entrant fast path through `jlrs_mutex_wait`. -/
theorem jlrs_mutex_wait_fast (self : TaskId) (c : jl_mutex_t)
    (h : c.owner = some self) (sp : Bool) (obs : List (Option TaskId)) :
    jlrs_mutex_wait self c sp obs
      = ⟨0, 0, some { c with count := uint32_inc c.count }⟩ := by
  unfold jlrs_mutex_wait
  rw [jlrs_mutex_wait_entry_fast self c h]

/-- C4: on a cell whose owner is the executing task, every acquire variant
takes the re-entrant fast path: it increments count and returns at once,
with zero spin iterations and zero safepoint checks, independent of the
owner values other tasks would make the spin loop observe; the tracked
variant additionally pushes the lock, the bare variants do not. -/
theorem jlrs_mutex_reentrant_fastpath (self : TaskId) (c : jl_mutex_t)
    (h : c.owner = some self) :
    jlrs_mutex_wait_entry self c
        = AcquirePath.fastpath { c with count := uint32_inc c.count }
  ∧ (∀ (sp : Bool) (obs : List (Option TaskId)),
      jlrs_mutex_wait self c sp obs
        = ⟨0, 0, some { c with count := uint32_inc c.count }⟩)
  ∧ (∀ obs : List (Option TaskId),
      jlrs_lock_cc self c obs
        = ⟨0, 0, some { c with count := uint32_inc c.count }⟩)
  ∧ (∀ (lockId : Nat) (obs : List (Option TaskId)) (locks : List Nat),
      jlrs_lock self lockId c obs locks
        = ⟨0, 0, some ({ c with count := uint32_inc c.count }, locks ++ [lockId])⟩)
  ∧ (∀ (obs : List (Option TaskId)) (locks : List Nat),
      jlrs_lock_nogc self c obs locks
        = ⟨0, 0, some ({ c with count := uint32_inc c.count }, locks)⟩) := by
  refine ⟨jlrs_mutex_wait_entry_fast self c h, jlrs_mutex_wait_fast self c h,
    ?_, ?_, ?_⟩
  · intro obs
    unfold jlrs_lock_cc
    rw [if_pos h]
  · intro lockId obs locks
    unfold jlrs_lock
    rw [jlrs_mutex_wait_fast self c h true obs]
    rfl
  · intro obs locks
    unfold jlrs_lock_nogc
    rw [jlrs_mutex_wait_fast self c h false obs]
    rfl

/-- Witness for C4: a cell held by task 1 at depth 3, acquired again. -/
theorem jlrs_mutex_reentrant_fastpath_witness :
    (⟨some 1, 3⟩ : jl_mutex_t).owner = some 1
  ∧ jlrs_mutex_wait_entry 1 ⟨some 1, 3⟩
      = AcquirePath.fastpath ⟨some 1, uint32_inc 3⟩
  ∧ jlrs_mutex_wait 1 ⟨some 1, 3⟩ true [some 2]
      = ⟨0, 0, some ⟨some 1, uint32_inc 3⟩⟩
  ∧ jlrs_lock 1 5 ⟨some 1, 3⟩ [some 2] [9]
      = ⟨0, 0, some (⟨some 1, uint32_inc 3⟩, [9] ++ [5])⟩ :=
  ⟨rfl,
   (jlrs_mutex_reentrant_fastpath 1 ⟨some 1, 3⟩ rfl).1,
   (jlrs_mutex_reentrant_fastpath 1 ⟨some 1, 3⟩ rfl).2.1 true [some 2],
   (jlrs_mutex_reentrant_fastpath 1 ⟨some 1, 3⟩ rfl).2.2.2.1 5 [some 2] [9]⟩

/-- C5: a release on a cell held at count N >= 1 decrements the count; it
clears the owner and issues the wake signal exactly when the decremented
count reaches zero, and otherwise changes nothing but the count.  The legacy
`jlrs_unlock` body (jlrs_cc.c) computes the identical function. -/
theorem jlrs_mutex_release_semantics (c : jl_mutex_t) (t : TaskId)
    (h₁ : c.owner = some t) (h₂ : 1 ≤ c.count) :
    (jlrs_mutex_unlock_nogc c).1.count = c.count - 1
  ∧ ((jlrs_mutex_unlock_nogc c).1.owner = none ↔ c.count - 1 = 0)
  ∧ ((jlrs_mutex_unlock_nogc c).2 = true ↔ c.count - 1 = 0)
  ∧ (c.count - 1 ≠ 0 → (jlrs_mutex_unlock_nogc c).1 = ⟨c.owner, c.count - 1⟩)
  ∧ jlrs_unlock_cc c = jlrs_mutex_unlock_nogc c := by
  have he := jlrs_mutex_unlock_nogc_eq c (Nat.one_le_iff_ne_zero.mp h₂)
  have hcc : jlrs_unlock_cc c = jlrs_mutex_unlock_nogc c := rfl
  by_cases hc : c.count - 1 = 0
  · refine ⟨?_, ?_, ?_, fun hn => absurd hc hn, hcc⟩
    · rw [he, if_pos hc, hc]
    · rw [he, if_pos hc]
      simp [hc]
    · rw [he, if_pos hc]
      simp [hc]
  · refine ⟨?_, ?_, ?_, fun hn => ?_, hcc⟩
    · rw [he, if_neg hc]
    · rw [he, if_neg hc]
      simp [h₁, hc]
    · rw [he, if_neg hc]
      simp [hc]
    · rw [he, if_neg hc]

/-- Witness for C5: releasing a cell held by task 1 at depth 2 keeps the
owner; the instantiated conjuncts follow from the release theorem. -/
theorem jlrs_mutex_release_semantics_witness :
    (⟨some 1, 2⟩ : jl_mutex_t).owner = some 1
  ∧ 1 ≤ (⟨some 1, 2⟩ : jl_mutex_t).count
  ∧ ((jlrs_mutex_unlock_nogc ⟨some 1, 2⟩).1.count
        = (⟨some 1, 2⟩ : jl_mutex_t).count - 1
    ∧ ((jlrs_mutex_unlock_nogc ⟨some 1, 2⟩).1.owner = none
        ↔ (⟨some 1, 2⟩ : jl_mutex_t).count - 1 = 0)
    ∧ ((jlrs_mutex_unlock_nogc ⟨some 1, 2⟩).2 = true
        ↔ (⟨some 1, 2⟩ : jl_mutex_t).count - 1 = 0)
    ∧ ((⟨some 1, 2⟩ : jl_mutex_t).count - 1 ≠ 0 →
        (jlrs_mutex_unlock_nogc ⟨some 1, 2⟩).1
          = ⟨(⟨some 1, 2⟩ : jl_mutex_t).owner, (⟨some 1, 2⟩ : jl_mutex_t).count - 1⟩)
    ∧ jlrs_unlock_cc ⟨some 1, 2⟩ = jlrs_mutex_unlock_nogc ⟨some 1, 2⟩) :=
  ⟨rfl, by decide, jlrs_mutex_release_semantics ⟨some 1, 2⟩ 1 rfl (by decide)⟩

/-- Unfolding one contended iteration of the spin loop. -/
theorem jlrs_mutex_spin_cons (self : TaskId) (sp : Bool) (o : TaskId)
    (o' : Option TaskId) (obs : List (Option TaskId)) :
    jlrs_mutex_spin self sp (some o) (o' :: obs)
      = ⟨(jlrs_mutex_spin self sp o' obs).iters + 1,
         (if sp then 1 else 0) + (jlrs_mutex_spin self sp o' obs).safepoints,
         (jlrs_mutex_spin self sp o' obs).acquired⟩ := rfl

/-- In the tracked spin loop every failed-CAS iteration performs exactly one
safepoint check. -/
theorem jlrs_mutex_spin_safepoints_tracked (self : TaskId) :
    ∀ (own : Option TaskId) (obs : List (Option TaskId)),
      (jlrs_mutex_spin self true own obs).safepoints
        = (jlrs_mutex_spin self true own obs).iters := by
  intro own obs
  induction obs generalizing own with
  | nil =>
      cases own with
      | none => rfl
      | some o => rfl
  | cons o' obs ih =>
      cases own with
      | none => rfl
      | some o =>
          have h := ih o'
          rw [jlrs_mutex_spin_cons self true o o' obs]
          dsimp only
          rw [if_pos rfl]
          omega

/-- The bare spin loop performs no safepoint check at all. -/
theorem jlrs_mutex_spin_safepoints_bare (self : TaskId) :
    ∀ (own : Option TaskId) (obs : List (Option TaskId)),
      (jlrs_mutex_spin self false own obs).safepoints = 0 := by
  intro own obs
  induction obs generalizing own with
  | nil =>
      cases own with
      | none => rfl
      | some o => rfl
  | cons o' obs ih =>
      cases own with
      | none => rfl
      | some o =>
          have h := ih o'
          rw [jlrs_mutex_spin_cons self false o o' obs]
          dsimp only
          rw [if_neg Bool.false_ne_true]
          omega

/-- A contended spin performs at least one loop iteration. -/
theorem jlrs_mutex_spin_iters_pos (self : TaskId) (sp : Bool) (o : TaskId)
    (obs : List (Option TaskId)) :
    1 ≤ (jlrs_mutex_spin self sp (some o) obs).iters := by
  cases obs with
  | nil => exact Nat.le_refl 1
  | cons o' obs =>
      rw [jlrs_mutex_spin_cons self sp o o' obs]
      dsimp only
      omega

/-- A contended acquire goes through the spin loop. -/
theorem jlrs_mutex_wait_contended (self o : TaskId) (c : jl_mutex_t)
    (h₁ : c.owner = some o) (h₂ : o ≠ self) (sp : Bool)
    (obs : List (Option TaskId)) :
    jlrs_mutex_wait self c sp obs = jlrs_mutex_spin self sp c.owner obs := by
  unfold jlrs_mutex_wait
  rw [jlrs_mutex_wait_entry_contended self o c h₁ h₂]

/-- C6 (amended): under contention, the tracked variant `jlrs_lock` of
jlrs_cc_hacks.c checks for a pending GC safepoint on each spin iteration and
pushes the lock onto the task's lock stack before returning, while the bare
variant `jlrs_lock_nogc` performs no safepoint check and no push.  (The
legacy `jlrs_lock` of jl_sys/src/jlrs_cc.c performs neither, see the
counterexample.) -/
theorem jlrs_lock_tracked_vs_bare (self o : TaskId) (lockId : Nat)
    (c : jl_mutex_t) (obs : List (Option TaskId)) (locks : List Nat)
    (h₁ : c.owner = some o) (h₂ : o ≠ self) :
    (jlrs_lock self lockId c obs locks).safepoints
        = (jlrs_lock self lockId c obs locks).iters
  ∧ 1 ≤ (jlrs_lock self lockId c obs locks).iters
  ∧ (∀ (c' : jl_mutex_t) (l' : List Nat),
      (jlrs_lock self lockId c obs locks).result = some (c', l') →
        l' = locks ++ [lockId])
  ∧ (jlrs_lock_nogc self c obs locks).safepoints = 0
  ∧ (∀ (c' : jl_mutex_t) (l' : List Nat),
      (jlrs_lock_nogc self c obs locks).result = some (c', l') → l' = locks) := by
  have hl : jlrs_lock self lockId c obs locks
      = ⟨(jlrs_mutex_spin self true c.owner obs).iters,
         (jlrs_mutex_spin self true c.owner obs).safepoints,
         (jlrs_mutex_spin self true c.owner obs).acquired.map
           fun c' => (c', jlrs_lock_frame_push locks lockId)⟩ := by
    unfold jlrs_lock
    rw [jlrs_mutex_wait_contended self o c h₁ h₂ true obs]
  have hln : jlrs_lock_nogc self c obs locks
      = ⟨(jlrs_mutex_spin self false c.owner obs).iters,
         (jlrs_mutex_spin self false c.owner obs).safepoints,
         (jlrs_mutex_spin self false c.owner obs).acquired.map
           fun c' => (c', locks)⟩ := by
    unfold jlrs_lock_nogc
    rw [jlrs_mutex_wait_contended self o c h₁ h₂ false obs]
  rw [hl, hln]
  dsimp only
  refine ⟨jlrs_mutex_spin_safepoints_tracked self c.owner obs, ?_, ?_,
    jlrs_mutex_spin_safepoints_bare self c.owner obs, ?_⟩
  · rw [h₁]
    exact jlrs_mutex_spin_iters_pos self true o obs
  · intro c' l' hres
    cases hacq : (jlrs_mutex_spin self true c.owner obs).acquired with
    | none => rw [hacq] at hres; simp at hres
    | some x =>
        rw [hacq] at hres
        simp [jlrs_lock_frame_push] at hres
        exact hres.2.symm
  · intro c' l' hres
    cases hacq : (jlrs_mutex_spin self false c.owner obs).acquired with
    | none => rw [hacq] at hres; simp at hres
    | some x =>
        rw [hacq] at hres
        simp at hres
        exact hres.2.symm

/-- Witness for C6: task 1 contends with owner 2, acquiring after one spin
iteration; the tracked variant checks one safepoint and pushes lock 5, the
bare variant checks none and leaves the lock list alone. -/
theorem jlrs_lock_tracked_vs_bare_witness :
    (⟨some 2, 1⟩ : jl_mutex_t).owner = some 2
  ∧ (2 : TaskId) ≠ 1
  ∧ (jlrs_lock 1 5 ⟨some 2, 1⟩ [none] []).safepoints
      = (jlrs_lock 1 5 ⟨some 2, 1⟩ [none] []).iters
  ∧ 1 ≤ (jlrs_lock 1 5 ⟨some 2, 1⟩ [none] []).iters
  ∧ (jlrs_lock_nogc 1 ⟨some 2, 1⟩ [none] []).safepoints = 0
  ∧ ([5] : List Nat) = [] ++ [5] :=
  ⟨rfl, by decide,
   (jlrs_lock_tracked_vs_bare 1 2 5 ⟨some 2, 1⟩ [none] [] rfl (by decide)).1,
   (jlrs_lock_tracked_vs_bare 1 2 5 ⟨some 2, 1⟩ [none] [] rfl (by decide)).2.1,
   (jlrs_lock_tracked_vs_bare 1 2 5 ⟨some 2, 1⟩ [none] [] rfl (by decide)).2.2.2.1,
   (jlrs_lock_tracked_vs_bare 1 2 5 ⟨some 2, 1⟩ [none] [] rfl (by decide)).2.2.1
     ⟨some 1, 1⟩ [5] (by decide)⟩

/-- C6 counterexample: the legacy `jlrs_lock` entry point (jlrs_cc.c lines
141-163) completes a contended acquire after two failed-CAS spin iterations
with zero safepoint checks (and it takes no lock stack to push onto), so the
claim that the tracked acquire entry point `jlrs_lock` safepoint-checks each
spin iteration and pushes the lock fails for this variant. -/
theorem jlrs_lock_legacy_no_safepoint :
    jlrs_lock_cc 1 ⟨some 2, 1⟩ [some 2, none] = ⟨2, 0, some ⟨some 1, 1⟩⟩
  ∧ (0 : Nat) ≠ 2 :=
  ⟨by decide, by decide⟩

/-- C7 (amended): in a debug build, `jlrs_mutex_unlock_nogc` (the release
path of jlrs_cc_hacks.c, also reached from `jlrs_unlock` and
`jlrs_unlock_nogc` there) rejects a release by a task that is not the owner:
the owner assertion is evaluated before any mutation, so no mutated cell is
produced.  (The legacy `jlrs_unlock` of jl_sys/src/jlrs_cc.c has no such
assertion, see the counterexample.) -/
theorem jlrs_unlock_owner_assertion (self : TaskId) (c : jl_mutex_t)
    (h : c.owner ≠ some self) :
    jlrs_mutex_unlock_nogc_dbg self c = none := by
  rw [jlrs_mutex_unlock_nogc_dbg, if_neg h]

/-- Witness for C7: task 1 releasing a cell owned by task 2 trips the
assertion. -/
theorem jlrs_unlock_owner_assertion_witness :
    (⟨some 2, 1⟩ : jl_mutex_t).owner ≠ some 1
  ∧ jlrs_mutex_unlock_nogc_dbg 1 ⟨some 2, 1⟩ = none :=
  ⟨by decide, jlrs_unlock_owner_assertion 1 ⟨some 2, 1⟩ (by decide)⟩

/-- C7 counterexample: the legacy `jlrs_unlock` (jlrs_cc.c lines 165-174)
contains no assertion, so in a debug build task 1 releasing a cell owned by
task 2 is not rejected: the call mutates the cell (here fully unlocking
task 2's lock and issuing the wake signal). -/
theorem jlrs_unlock_legacy_no_assert :
    jlrs_unlock_cc_dbg 1 ⟨some 2, 1⟩ = some (⟨none, 0⟩, true)
  ∧ (⟨some 2, 1⟩ : jl_mutex_t).owner ≠ some 1
  ∧ some ((⟨none, 0⟩ : jl_mutex_t), true) ≠ (none : Option (jl_mutex_t × Bool)) :=
  ⟨by decide, by decide, by decide⟩

/-- C8: the shim builds exactly when the selected minor version equals the
linked runtime's reported minor version; on a mismatch the preprocessor
error fires and no shim entry point exists. -/
theorem jlrs_version_mismatch_build (expected linked : Nat) :
    ((jlrs_shim_build expected linked).isSome ↔ expected = linked)
  ∧ (expected ≠ linked → jlrs_shim_build expected linked = none) := by
  unfold jlrs_shim_build
  by_cases h : expected = linked
  · simp [h]
  · simp [h]

/-- Witness for C8: version 10 against 10 builds, 10 against 11 does not. -/
theorem jlrs_version_mismatch_build_witness :
    ((jlrs_shim_build 10 10).isSome ↔ (10 : Nat) = 10)
  ∧ ((10 : Nat) ≠ 11 → jlrs_shim_build 10 11 = none) :=
  ⟨(jlrs_version_mismatch_build 10 10).1, (jlrs_version_mismatch_build 10 11).2⟩

/-- C9: on a thread with no associated runtime task (NULL `jl_get_pgcstack`),
`jlrs_current_task` and `jlrs_get_ptls_states` return NULL and
`jlrs_task_gc_state` returns -1 instead of dereferencing a null task. -/
theorem jlrs_tls_null_sentinels (tls : ThreadTLS) (h : tls.pgcstack = none) :
    jlrs_current_task tls = none
  ∧ jlrs_get_ptls_states tls = none
  ∧ jlrs_task_gc_state tls = -1 := by
  unfold jlrs_current_task jlrs_get_ptls_states jlrs_task_gc_state
  rw [h]
  exact ⟨rfl, rfl, rfl⟩

/-- Witness for C9: the thread state with a NULL gcstack pointer. -/
theorem jlrs_tls_null_sentinels_witness :
    (⟨none⟩ : ThreadTLS).pgcstack = none
  ∧ (jlrs_current_task ⟨none⟩ = none
    ∧ jlrs_get_ptls_states ⟨none⟩ = none
    ∧ jlrs_task_gc_state ⟨none⟩ = -1) :=
  ⟨rfl, jlrs_tls_null_sentinels ⟨none⟩ rfl⟩

/-- `uint32_inc` agrees with `% 2^32` increment on register values. -/
theorem uint32_inc_mod (x : Nat) (hx : x < UINT32_MOD) :
    uint32_inc x = (x + 1) % UINT32_MOD := by
  rw [uint32_inc]
  by_cases h : x + 1 = UINT32_MOD
  · rw [if_pos h, h, Nat.mod_self]
  · rw [if_neg h, Nat.mod_eq_of_lt (Nat.lt_of_le_of_ne (Nat.succ_le_of_lt hx) h)]

/-- Unfolding the search at a non-union haystack. -/
theorem jlrs_find_leaf (t needle k : Nat) :
    jlrs_find_union_component (.leaf t) needle k
      = if needle = t then (true, k) else (false, uint32_inc k) := rfl

/-- Unfolding the search at a union node. -/
theorem jlrs_find_union (a b : jl_uniontype_tree) (needle k : Nat) :
    jlrs_find_union_component (.union a b) needle k
      = match jlrs_find_union_component a needle k with
        | (true, nth') => (true, nth')
        | (false, nth') => jlrs_find_union_component b needle nth' := rfl

/-- The first-occurrence index ignores a suffix when the needle occurs in the
prefix. -/
theorem leafIndexOf_append_mem (needle : Nat) (l₁ l₂ : List Nat)
    (h : needle ∈ l₁) :
    leafIndexOf needle (l₁ ++ l₂) = leafIndexOf needle l₁ := by
  induction l₁ with
  | nil => cases h
  | cons t ts ih =>
      by_cases ht : t = needle
      · simp only [List.cons_append, leafIndexOf, if_pos ht]
      · have hmem : needle ∈ ts := by
          cases h with
          | head => exact absurd rfl ht
          | tail _ hh => exact hh
        simp only [List.cons_append, leafIndexOf, if_neg ht, List.append_eq]
        have hh := ih hmem
        omega

/-- When the needle is absent, the first-occurrence index is the length. -/
theorem leafIndexOf_not_mem (needle : Nat) (l : List Nat) (h : needle ∉ l) :
    leafIndexOf needle l = l.length := by
  induction l with
  | nil => rfl
  | cons t ts ih =>
      have ht : t ≠ needle := fun he => h (by rw [← he]; exact List.mem_cons_self t ts)
      have hts : needle ∉ ts := fun hm => h (List.mem_cons_of_mem t hm)
      simp only [leafIndexOf, if_neg ht, ih hts, List.length_cons]

/-- When the needle misses the prefix, the first-occurrence index skips its
whole length. -/
theorem leafIndexOf_append_not_mem (needle : Nat) (l₁ l₂ : List Nat)
    (h : needle ∉ l₁) :
    leafIndexOf needle (l₁ ++ l₂) = l₁.length + leafIndexOf needle l₂ := by
  induction l₁ with
  | nil => simp [leafIndexOf]
  | cons t ts ih =>
      have ht : t ≠ needle := fun he => h (by rw [← he]; exact List.mem_cons_self t ts)
      have hts : needle ∉ ts := fun hm => h (List.mem_cons_of_mem t hm)
      simp only [List.cons_append, leafIndexOf, if_neg ht, List.length_cons,
        List.append_eq]
      have hh := ih hts
      omega

/-- C10 (amended): the search returns 1 exactly when the needle occurs among
the leaf components (left-to-right), and the final counter is the initial
counter plus the number of leaf components strictly preceding the first
occurrence (the total number of leaves when the needle is absent), reduced
modulo 2^32 because `*nth` is a C `unsigned`. -/
theorem jlrs_find_union_component_spec (t : jl_uniontype_tree) :
    ∀ (needle k : Nat), k < UINT32_MOD →
      (((jlrs_find_union_component t needle k).1 = true ↔ needle ∈ unionLeaves t)
      ∧ (jlrs_find_union_component t needle k).2
          = (k + leafIndexOf needle (unionLeaves t)) % UINT32_MOD) := by
  induction t with
  | leaf t =>
      intro needle k hk
      rw [jlrs_find_leaf]
      by_cases hn : needle = t
      · rw [if_pos hn]
        constructor
        · simp [unionLeaves, hn]
        · have hidx : leafIndexOf needle (unionLeaves (.leaf t)) = 0 := by
            simp [unionLeaves, leafIndexOf, hn]
          rw [hidx, Nat.add_zero, Nat.mod_eq_of_lt hk]
      · rw [if_neg hn]
        constructor
        · simp [unionLeaves, hn]
        · have ht : t ≠ needle := fun he => hn he.symm
          have hidx : leafIndexOf needle (unionLeaves (.leaf t)) = 1 := by
            simp [unionLeaves, leafIndexOf, ht]
          rw [hidx, uint32_inc_mod k hk]
  | union a b iha ihb =>
      intro needle k hk
      rw [jlrs_find_union]
      rcases hfa : jlrs_find_union_component a needle k with ⟨fa, na⟩
      have ha := iha needle k hk
      rw [hfa] at ha
      dsimp only at ha
      cases fa with
      | true =>
          dsimp only
          have hmem : needle ∈ unionLeaves a := ha.1.mp rfl
          have hmem' : needle ∈ unionLeaves (jl_uniontype_tree.union a b) := by
            show needle ∈ unionLeaves a ++ unionLeaves b
            exact List.mem_append_left _ hmem
          constructor
          · simp [hmem']
          · rw [show unionLeaves (jl_uniontype_tree.union a b)
                  = unionLeaves a ++ unionLeaves b from rfl,
              leafIndexOf_append_mem needle _ _ hmem]
            exact ha.2
      | false =>
          dsimp only
          have hnmem : needle ∉ unionLeaves a := fun hm =>
            Bool.false_ne_true (ha.1.mpr hm)
          have hna : na = (k + (unionLeaves a).length) % UINT32_MOD := by
            rw [ha.2, leafIndexOf_not_mem needle _ hnmem]
          have hnak : na < UINT32_MOD := by
            rw [hna]
            exact Nat.mod_lt _ (by decide)
          have hb := ihb needle na hnak
          constructor
          · have hiff : needle ∈ unionLeaves (jl_uniontype_tree.union a b)
                ↔ needle ∈ unionLeaves b := by
              show needle ∈ unionLeaves a ++ unionLeaves b ↔ _
              simp [List.mem_append, hnmem]
            exact hb.1.trans hiff.symm
          · rw [hb.2, hna, Nat.mod_add_mod,
              show unionLeaves (jl_uniontype_tree.union a b)
                = unionLeaves a ++ unionLeaves b from rfl,
              leafIndexOf_append_not_mem needle _ _ hnmem, Nat.add_assoc]

/-- Witness for C10: searching for leaf 2 in Union(1, Union(2, 3)) starting
from counter 5 finds it with one preceding leaf. -/
theorem jlrs_find_union_component_spec_witness :
    (5 : Nat) < UINT32_MOD
  ∧ (((jlrs_find_union_component
        (jl_uniontype_tree.union (.leaf 1) (.union (.leaf 2) (.leaf 3))) 2 5).1 = true
      ↔ 2 ∈ unionLeaves
          (jl_uniontype_tree.union (.leaf 1) (.union (.leaf 2) (.leaf 3))))
    ∧ (jlrs_find_union_component
        (jl_uniontype_tree.union (.leaf 1) (.union (.leaf 2) (.leaf 3))) 2 5).2
        = (5 + leafIndexOf 2 (unionLeaves
            (jl_uniontype_tree.union (.leaf 1) (.union (.leaf 2) (.leaf 3)))))
          % UINT32_MOD) :=
  ⟨by decide,
   jlrs_find_union_component_spec
     (jl_uniontype_tree.union (.leaf 1) (.union (.leaf 2) (.leaf 3))) 2 5 (by decide)⟩

/-- Searching the full tree of depth `n` for an absent needle walks all
`2 ^ n` leaves, accumulating into the counter modulo 2^32. -/
theorem jlrs_find_fullUnionTree (n : Nat) :
    ∀ k : Nat, k < UINT32_MOD →
      jlrs_find_union_component (fullUnionTree n) 0 k
        = (false, (k + 2 ^ n) % UINT32_MOD) := by
  induction n with
  | zero =>
      intro k hk
      rw [show fullUnionTree 0 = .leaf 1 from rfl, jlrs_find_leaf,
        if_neg (by decide : (0 : Nat) ≠ 1), uint32_inc_mod k hk, pow_zero]
  | succ n ih =>
      intro k hk
      rw [show fullUnionTree (n + 1)
            = .union (fullUnionTree n) (fullUnionTree n) from rfl,
        jlrs_find_union, ih k hk]
      dsimp only
      rw [ih ((k + 2 ^ n) % UINT32_MOD) (Nat.mod_lt _ (by decide)), Nat.mod_add_mod,
        show k + 2 ^ n + 2 ^ n = k + 2 ^ (n + 1) from by rw [pow_succ]; ring]

/-- The full tree of depth `n` has `2 ^ n` leaf components. -/
theorem unionLeaves_fullUnionTree (n : Nat) :
    (unionLeaves (fullUnionTree n)).length = 2 ^ n := by
  induction n with
  | zero => rfl
  | succ n ih =>
      rw [show fullUnionTree (n + 1)
            = .union (fullUnionTree n) (fullUnionTree n) from rfl]
      show (unionLeaves (fullUnionTree n) ++ unionLeaves (fullUnionTree n)).length = _
      rw [List.length_append, ih, pow_succ]
      omega

/-- C10 counterexample: on the depth-32 full union tree (33 heap nodes with
shared subtrees, traversed as a tree with 2^32 leaf components) and an
absent needle, the code returns counter 0 from initial counter 0, while the
claim demands 0 plus the number of leaf components, 2^32: the `unsigned`
counter has wrapped. -/
theorem jlrs_find_union_component_wrap_counterexample :
    jlrs_find_union_component (fullUnionTree 32) 0 0 = (false, 0)
  ∧ (unionLeaves (fullUnionTree 32)).length = 2 ^ 32
  ∧ (0 : Nat) + 2 ^ 32 ≠ 0 := by
  refine ⟨?_, unionLeaves_fullUnionTree 32, by norm_num⟩
  rw [jlrs_find_fullUnionTree 32 0 (by decide),
    show ((0 : Nat) + 2 ^ 32) % UINT32_MOD = 0 from by decide]
